import Mathlib

/-!
Verification of the particle-field and cursor-follower subsystems of
`src/main.js` (functions `setupParticleCanvas`, `setupCustomCursor`).

The numeric state is modelled over the reals.  JavaScript's `%` operator
(sign of the dividend) is modelled by `jsRem`, `Math.atan2` by the complex
argument, and the two `Math.random()` draws of the idle-jitter step are
passed in as explicit parameters `r1 r2` (the code draws them lazily inside
the branches; since each is used only when its branch is taken, passing
them unconditionally is equivalent).
-/

/-- A 2D vector, as the `{x, y}` velocity objects of `main.js`. -/
structure Vec where
  x : ℝ
  y : ℝ

/-- The mouse state of `setupParticleCanvas`: each coordinate is
`undefined` (`none`) after a `mouseout`, or a number after `mousemove`. -/
structure Mouse where
  x : Option ℝ
  y : Option ℝ

/-- Particle state: fields of the `Particle` class in `main.js`. -/
structure Particle where
  x : ℝ
  y : ℝ
  radius : ℝ
  velocity : Vec
  hue : ℝ

/-- JavaScript's remainder operator `a % b`: the result has the sign of the
dividend, `a - b * trunc(a / b)`. -/
noncomputable def jsRem (a b : ℝ) : ℝ :=
  a - b * (if 0 ≤ a / b then ((⌊a / b⌋ : ℤ) : ℝ) else ((⌈a / b⌉ : ℤ) : ℝ))

/-- The function `Math.atan2 y x`: the argument of the complex number `x + y i`,
in `(-π, π]`, with `atan2 0 0 = 0`. -/
noncomputable def atan2 (y x : ℝ) : ℝ := Complex.arg ⟨x, y⟩

/-- Line 283: `this.hue = (this.hue + 0.5) % 360`. -/
noncomputable def hueNext (h : ℝ) : ℝ := jsRem (h + 0.5) 360

/-- The hue update of `Particle.update` (line 283). -/
noncomputable def hueStep (p : Particle) : Particle :=
  { p with hue := hueNext p.hue }

/-- The mouse-repulsion step of `Particle.update` (lines 285-300):
if both mouse coordinates are defined and the particle is within
`repelRadius = 100` of the mouse, push it away from the mouse with force
`(100 - dist) / 100` scaled by `maxForce = 2`. -/
noncomputable def repelStep (m : Mouse) (p : Particle) : Particle :=
  match m.x, m.y with
  | some mx, some my =>
    let dx := p.x - mx
    let dy := p.y - my
    let dist := Real.sqrt (dx ^ 2 + dy ^ 2)
    if dist < 100 then
      let angle := atan2 dy dx
      let force := (100 - dist) / 100
      { p with velocity := ⟨p.velocity.x + Real.cos angle * force * 2,
                            p.velocity.y + Real.sin angle * force * 2⟩ }
    else p
  | _, _ => p

/-- The friction step (lines 302-304): `velocity *= 0.97` on both axes. -/
noncomputable def frictionStep (p : Particle) : Particle :=
  { p with velocity := ⟨p.velocity.x * 0.97, p.velocity.y * 0.97⟩ }

/-- The speed of a velocity vector (line 308). -/
noncomputable def speedOf (v : Vec) : ℝ := Real.sqrt (v.x ^ 2 + v.y ^ 2)

/-- The speed-cap step (lines 306-312): if the speed exceeds
`maxSpeed = 1.5`, rescale the velocity to magnitude exactly `1.5`. -/
noncomputable def capStep (p : Particle) : Particle :=
  if speedOf p.velocity > 1.5 then
    { p with velocity := ⟨p.velocity.x / speedOf p.velocity * 1.5,
                          p.velocity.y / speedOf p.velocity * 1.5⟩ }
  else p

/-- The idle-jitter step (lines 314-316): on each axis, if the velocity
component is below `0.05` in absolute value, add `(Math.random() - 0.5) * 0.05`.
`r1` and `r2` are the two `Math.random()` draws, each in `[0, 1)`. -/
noncomputable def jitterStep (r1 r2 : ℝ) (p : Particle) : Particle :=
  { p with velocity :=
      ⟨if |p.velocity.x| < 0.05 then p.velocity.x + (r1 - 0.5) * 0.05
        else p.velocity.x,
       if |p.velocity.y| < 0.05 then p.velocity.y + (r2 - 0.5) * 0.05
        else p.velocity.y⟩ }

/-- The integration step (lines 318-320): `position += velocity`. -/
noncomputable def moveStep (p : Particle) : Particle :=
  { p with x := p.x + p.velocity.x, y := p.y + p.velocity.y }

/-- The wall bounce on one axis (lines 322-337): an `if / else if` pair;
returns the new position and velocity component. -/
noncomputable def bounceAxis (pos rad dim v : ℝ) : ℝ × ℝ :=
  if pos - rad < 0 then (rad, -v * 0.5)
  else if pos + rad > dim then (dim - rad, -v * 0.5)
  else (pos, v)

/-- The wall-bounce step of `Particle.update`, both axes. -/
noncomputable def bounceStep (w h : ℝ) (p : Particle) : Particle :=
  { p with x := (bounceAxis p.x p.radius w p.velocity.x).1,
           y := (bounceAxis p.y p.radius h p.velocity.y).1,
           velocity := ⟨(bounceAxis p.x p.radius w p.velocity.x).2,
                        (bounceAxis p.y p.radius h p.velocity.y).2⟩ }

/-- The method `Particle.update` (lines 282-340), as the composition of its steps in
source order.  `w h` are `canvas.width`/`canvas.height`; `r1 r2` are the
jitter random draws.  (`this.draw()` at line 339 only paints and reads the
dark-mode flag; it mutates no particle field, so it is omitted from the
state transformer.) -/
noncomputable def update (m : Mouse) (w h r1 r2 : ℝ) (p : Particle) : Particle :=
  bounceStep w h (moveStep (jitterStep r1 r2 (capStep (frictionStep (repelStep m (hueStep p))))))

/-- One frame of the cursor follower (lines 212-222 of `animateCursor`):
`current += (target - current) * smoothing` on each axis, `smoothing = 0.1`. -/
noncomputable def cursorStep (t c : ℝ × ℝ) : ℝ × ℝ :=
  (c.1 + (t.1 - c.1) * 0.1, c.2 + (t.2 - c.2) * 0.1)

/-- The six `Math.random()` draws used to create one particle in
`initParticles` (lines 347-351): radius, x, y, vx, vy, hue. -/
structure RandSix where
  a : ℝ
  b : ℝ
  c : ℝ
  d : ℝ
  e : ℝ
  f : ℝ

/-- One particle as created by the loop body of `initParticles`
(lines 347-352). -/
noncomputable def mkParticle (cw ch : ℝ) (r : RandSix) : Particle :=
  let radius := r.a * 1.5 + 1
  { x := r.b * (cw - radius * 2) + radius
    y := r.c * (ch - radius * 2) + radius
    radius := radius
    velocity := ⟨(r.d - 0.5) * 0.2, (r.e - 0.5) * 0.2⟩
    hue := r.f * 360 }

/-- The function `initParticles` (lines 343-354): discard the old collection
(`particles = []`) and push `40` fresh particles if `window.innerWidth < 768`,
else `80`.  `iw` is `window.innerWidth`, `cw ch` the canvas dimensions,
`rand` supplies the random draws of iteration `i`, `old` is the collection
being replaced (never read). -/
noncomputable def initParticles (iw cw ch : ℝ) (rand : ℕ → RandSix)
    (old : List Particle) : List Particle :=
  (List.range (if iw < 768 then 40 else 80)).map (fun i => mkParticle cw ch (rand i))

/-- The debounced-timer semantics of the resize handler (lines 367-374):
given the strictly increasing times of the resize events, an event's
pending 250ms timer fires unless the next event arrives strictly before
the deadline (`clearTimeout` then `setTimeout(250)`); returns the times at
which the debounced callback runs. -/
def debounceFires : List ℚ → List ℚ
  | [] => []
  | [e] => [e + 250]
  | e :: e' :: rest =>
    if e' < e + 250 then debounceFires (e' :: rest)
    else (e + 250) :: debounceFires (e' :: rest)

/-- Times at which `initParticles` is called in response to a list of
resize events: only the debounced callback (line 372) calls it. -/
def initParticlesCalls (es : List ℚ) : List ℚ := debounceFires es

/-- Times at which the drawing surface is resized (`resizeCanvas`) in
response to a list of resize events: line 246 registers `resizeCanvas`
directly as a resize listener (one call per event, immediately), and the
debounced callback calls it again at line 371. -/
def surfaceResizeCalls (es : List ℚ) : List ℚ := es ++ debounceFires es

/-- C9: `initParticles` replaces the whole collection with fresh particles:
the result ignores the old collection, and has exactly 40 particles when
the viewport width is below 768 and exactly 80 otherwise; in particular
width 500 gives 40 and width 1024 gives 80. -/
theorem initParticles_count (iw cw ch : ℝ) (rand : ℕ → RandSix)
    (old : List Particle) :
    (initParticles iw cw ch rand old).length = (if iw < 768 then 40 else 80)
    ∧ (∀ old' : List Particle,
        initParticles iw cw ch rand old = initParticles iw cw ch rand old')
    ∧ (iw = 500 → (initParticles iw cw ch rand old).length = 40)
    ∧ (iw = 1024 → (initParticles iw cw ch rand old).length = 80) := by
  refine ⟨by simp [initParticles], fun old' => rfl, ?_, ?_⟩
  · rintro rfl
    simp [initParticles]
    norm_num
  · rintro rfl
    simp [initParticles]
    norm_num

/-- C9 witness: at viewport width 500 the collection has exactly 40
particles. -/
theorem initParticles_count_witness :
    (initParticles 500 500 300 (fun _ => ⟨0, 0, 0, 0, 0, 0⟩) []).length = 40 :=
  (initParticles_count 500 500 300 (fun _ => ⟨0, 0, 0, 0, 0, 0⟩) []).2.2.1 rfl

/-- C4 counterexample: the two wall checks form an `if / else if`, so when
both conditions hold (surface narrower than the particle's diameter) only
the near-edge branch runs: at `pos = 0.5`, `rad = 2`, `dim = 1`, `v = 1`
we have `pos + rad > dim`, yet the result is not
`(dim - rad, -v * 0.5) = (-1, -0.5)` as the claim requires. -/
theorem bounceAxis_farEdge_counterexample :
    (0.5 : ℝ) + 2 > 1 ∧ bounceAxis 0.5 2 1 1 ≠ ((1 : ℝ) - 2, -1 * 0.5) := by
  constructor
  · norm_num
  · have h : bounceAxis 0.5 2 1 1 = ((2 : ℝ), -1 * 0.5) := by
      unfold bounceAxis
      rw [if_pos (by norm_num)]
    rw [h]
    intro hc
    have := congrArg Prod.fst hc
    norm_num at this

/-- C4 amended: per axis, if `pos - rad < 0` the result is
`(rad, -v * 0.5)`; otherwise (and only otherwise), if `pos + rad > dim`
the result is `(dim - rad, -v * 0.5)`; otherwise position and velocity are
unchanged. -/
theorem bounceAxis_spec (pos rad dim v : ℝ) :
    (pos - rad < 0 → bounceAxis pos rad dim v = (rad, -v * 0.5))
    ∧ (¬ pos - rad < 0 → pos + rad > dim →
        bounceAxis pos rad dim v = (dim - rad, -v * 0.5))
    ∧ (¬ pos - rad < 0 → ¬ pos + rad > dim →
        bounceAxis pos rad dim v = (pos, v)) := by
  refine ⟨fun h1 => ?_, fun h1 h2 => ?_, fun h1 h2 => ?_⟩
  · unfold bounceAxis
    rw [if_pos h1]
  · unfold bounceAxis
    rw [if_neg h1, if_pos h2]
  · unfold bounceAxis
    rw [if_neg h1, if_neg h2]

/-- C4 witness: a concrete near-edge bounce, `pos = 0`, `rad = 1`,
`dim = 100`, `v = 3`. -/
theorem bounceAxis_spec_witness :
    bounceAxis 0 1 100 3 = ((1 : ℝ), -3 * 0.5) :=
  (bounceAxis_spec 0 1 100 3).1 (by norm_num)

/-- C3: with the pointer present at `(mx, my)` and
`dist = sqrt((x-mx)^2 + (y-my)^2) < 100`, the repulsion step adds exactly
`cos(atan2(dy, dx)) * ((100 - dist)/100) * 2` to `velocity.x` and
`sin(atan2(dy, dx)) * ((100 - dist)/100) * 2` to `velocity.y`, touching
nothing else; with the pointer absent (either coordinate undefined) or
`dist ≥ 100`, it leaves the particle unchanged. -/
theorem repelStep_spec (p : Particle) (mx my : ℝ) (m : Mouse) :
    (Real.sqrt ((p.x - mx) ^ 2 + (p.y - my) ^ 2) < 100 →
      repelStep ⟨some mx, some my⟩ p =
        { p with velocity :=
            ⟨p.velocity.x + Real.cos (atan2 (p.y - my) (p.x - mx)) *
                ((100 - Real.sqrt ((p.x - mx) ^ 2 + (p.y - my) ^ 2)) / 100) * 2,
             p.velocity.y + Real.sin (atan2 (p.y - my) (p.x - mx)) *
                ((100 - Real.sqrt ((p.x - mx) ^ 2 + (p.y - my) ^ 2)) / 100) * 2⟩ })
    ∧ (100 ≤ Real.sqrt ((p.x - mx) ^ 2 + (p.y - my) ^ 2) →
        repelStep ⟨some mx, some my⟩ p = p)
    ∧ (m.x = none ∨ m.y = none → repelStep m p = p) := by
  refine ⟨fun hlt => ?_, fun hge => ?_, fun habs => ?_⟩
  · show (if Real.sqrt ((p.x - mx) ^ 2 + (p.y - my) ^ 2) < 100 then _ else _) = _
    rw [if_pos hlt]
  · show (if Real.sqrt ((p.x - mx) ^ 2 + (p.y - my) ^ 2) < 100 then _ else _) = _
    rw [if_neg (not_lt.mpr hge)]
  · obtain ⟨a, b⟩ := m
    rcases habs with h | h
    · cases h
      unfold repelStep
      rfl
    · cases h
      unfold repelStep
      cases a <;> rfl

/-- C3 witness: particle at `(3, 4)` with zero velocity, pointer at the
origin; `dist = 5 < 100`, so the velocity becomes exactly the repulsion
increment. -/
theorem repelStep_spec_witness :
    repelStep ⟨some 0, some 0⟩ ⟨3, 4, 1, ⟨0, 0⟩, 0⟩ =
      { x := 3, y := 4, radius := 1,
        velocity :=
          ⟨0 + Real.cos (atan2 ((4 : ℝ) - 0) ((3 : ℝ) - 0)) *
              ((100 - Real.sqrt (((3 : ℝ) - 0) ^ 2 + ((4 : ℝ) - 0) ^ 2)) / 100) * 2,
           0 + Real.sin (atan2 ((4 : ℝ) - 0) ((3 : ℝ) - 0)) *
              ((100 - Real.sqrt (((3 : ℝ) - 0) ^ 2 + ((4 : ℝ) - 0) ^ 2)) / 100) * 2⟩,
        hue := 0 } := by
  have hd : Real.sqrt (((3 : ℝ) - 0) ^ 2 + ((4 : ℝ) - 0) ^ 2) < 100 := by
    have h25 : ((3 : ℝ) - 0) ^ 2 + ((4 : ℝ) - 0) ^ 2 = 5 ^ 2 := by norm_num
    rw [h25, Real.sqrt_sq (by norm_num : (0 : ℝ) ≤ 5)]
    norm_num
  exact (repelStep_spec ⟨3, 4, 1, ⟨0, 0⟩, 0⟩ 0 0 ⟨some 0, some 0⟩).1 hd

/-- For a chronological burst whose consecutive gaps are all below 250ms,
the debounced callback fires exactly once, 250ms after the last event. -/
theorem debounceFires_burst (e : ℚ) (es : List ℚ)
    (h : List.Chain (fun a b => a < b ∧ b < a + 250) e es) :
    debounceFires (e :: es) = [es.getLastD e + 250] := by
  induction es generalizing e with
  | nil => simp [debounceFires]
  | cons e' rest ih =>
    rcases h with _ | ⟨⟨_, hgap⟩, htail⟩
    show (if e' < e + 250 then debounceFires (e' :: rest)
          else (e + 250) :: debounceFires (e' :: rest)) = _
    rw [if_pos hgap, List.getLastD_cons]
    exact ih e' htail

/-- C5 counterexample: two resize events at times 0 and 100 (within 250ms
of each other).  The non-debounced listener registered at line 246 resizes
the drawing surface at times 0 and 100 — during the burst — and in total
the surface is resized three times, not once. -/
theorem surfaceResize_burst_counterexample :
    surfaceResizeCalls [0, 100] = [0, 100, 350]
    ∧ (surfaceResizeCalls [0, 100]).length ≠ 1 := by
  have h : surfaceResizeCalls [0, 100] = [0, 100, 350] := by
    show [0, 100] ++ debounceFires [0, 100] = _
    have h2 : debounceFires [0, 100] = [350] := by
      show (if (100 : ℚ) < 0 + 250 then debounceFires [100]
            else ((0 : ℚ) + 250) :: debounceFires [100]) = _
      rw [if_pos (by norm_num)]
      show [(100 : ℚ) + 250] = [350]
      norm_num
    rw [h2]
    rfl
  exact ⟨h, by rw [h]; simp⟩

/-- C5 amended: a burst of resize events with consecutive gaps below 250ms
causes exactly one `initParticles` call, 250ms after the last event of the
burst; the drawing surface, however, is also resized immediately at every
event of the burst by the separate non-debounced `resizeCanvas` listener
(N immediate resizes plus one in the debounced callback). -/
theorem debounce_burst_spec (e : ℚ) (es : List ℚ)
    (h : List.Chain (fun a b => a < b ∧ b < a + 250) e es) :
    initParticlesCalls (e :: es) = [es.getLastD e + 250]
    ∧ surfaceResizeCalls (e :: es) = (e :: es) ++ [es.getLastD e + 250] := by
  have hd := debounceFires_burst e es h
  exact ⟨hd, by show (e :: es) ++ debounceFires (e :: es) = _; rw [hd]⟩

/-- C5 witness: a concrete burst at times 0, 100, 200 produces exactly one
`initParticles` call, at time 450. -/
theorem debounce_burst_spec_witness :
    initParticlesCalls [0, 100, 200] = [450]
    ∧ surfaceResizeCalls [0, 100, 200] = [0, 100, 200] ++ [450] := by
  have h := debounce_burst_spec 0 [100, 200]
    (by constructor
        · constructor <;> norm_num
        · constructor
          · constructor <;> norm_num
          · exact List.Chain.nil)
  norm_num at h
  simpa using h

/-- Closed form of the cursor-follower iteration for a constant target. -/
theorem cursorStep_iterate (t c : ℝ × ℝ) (k : ℕ) :
    (cursorStep t)^[k] c
      = (t.1 - (t.1 - c.1) * (1 - 0.1) ^ k, t.2 - (t.2 - c.2) * (1 - 0.1) ^ k) := by
  induction k with
  | zero => simp
  | succ n ih =>
    rw [Function.iterate_succ_apply', ih]
    simp only [cursorStep, Prod.ext_iff]
    constructor <;> ring

/-- C6: for a constant target, the cursor follower's per-frame rule
`current += (target - current) * 0.1` gives, on each axis,
`current_k = target - (target - current_0) * (1 - 0.1)^k`; the current
position never overshoots the target on either axis; and it converges:
for every `ε > 0` some iterate is within `ε` of the target on both axes. -/
theorem cursor_follower_spec (t c : ℝ × ℝ) :
    (∀ k : ℕ, (cursorStep t)^[k] c
        = (t.1 - (t.1 - c.1) * (1 - 0.1) ^ k, t.2 - (t.2 - c.2) * (1 - 0.1) ^ k))
    ∧ (∀ k : ℕ,
        (c.1 ≤ t.1 → ((cursorStep t)^[k] c).1 ≤ t.1)
        ∧ (t.1 ≤ c.1 → t.1 ≤ ((cursorStep t)^[k] c).1)
        ∧ (c.2 ≤ t.2 → ((cursorStep t)^[k] c).2 ≤ t.2)
        ∧ (t.2 ≤ c.2 → t.2 ≤ ((cursorStep t)^[k] c).2))
    ∧ (∀ ε : ℝ, 0 < ε → ∃ k : ℕ,
        |((cursorStep t)^[k] c).1 - t.1| < ε ∧ |((cursorStep t)^[k] c).2 - t.2| < ε) := by
  have hpow : ∀ k : ℕ, (0 : ℝ) ≤ (1 - 0.1) ^ k := fun k => by positivity
  refine ⟨cursorStep_iterate t c, fun k => ?_, fun ε hε => ?_⟩
  · rw [cursorStep_iterate t c k]
    refine ⟨fun h1 => ?_, fun h1 => ?_, fun h2 => ?_, fun h2 => ?_⟩
    · simp only []
      nlinarith [hpow k]
    · simp only []
      nlinarith [hpow k]
    · simp only []
      nlinarith [hpow k]
    · simp only []
      nlinarith [hpow k]
  · set M : ℝ := |t.1 - c.1| + |t.2 - c.2| + 1 with hM
    have hMpos : 0 < M := by positivity
    obtain ⟨k, hk⟩ := exists_pow_lt_of_lt_one (div_pos hε hMpos)
      (by norm_num : (1 - 0.1 : ℝ) < 1)
    have hkM : (1 - 0.1 : ℝ) ^ k * M < ε := (lt_div_iff₀ hMpos).mp hk
    refine ⟨k, ?_, ?_⟩
    · rw [cursorStep_iterate t c k]
      simp only []
      have : |t.1 - (t.1 - c.1) * (1 - 0.1) ^ k - t.1| = |t.1 - c.1| * (1 - 0.1) ^ k := by
        rw [show t.1 - (t.1 - c.1) * (1 - 0.1) ^ k - t.1 = -((t.1 - c.1) * (1 - 0.1) ^ k) by ring,
          abs_neg, abs_mul, abs_pow, abs_of_nonneg (by norm_num : (0 : ℝ) ≤ 1 - 0.1)]
      rw [this]
      have h1 : |t.1 - c.1| * (1 - 0.1) ^ k ≤ M * (1 - 0.1) ^ k := by
        apply mul_le_mul_of_nonneg_right _ (hpow k)
        have := abs_nonneg (t.2 - c.2)
        rw [hM]; linarith
      calc |t.1 - c.1| * (1 - 0.1) ^ k ≤ M * (1 - 0.1) ^ k := h1
        _ < ε := by rw [mul_comm]; exact hkM
    · rw [cursorStep_iterate t c k]
      simp only []
      have : |t.2 - (t.2 - c.2) * (1 - 0.1) ^ k - t.2| = |t.2 - c.2| * (1 - 0.1) ^ k := by
        rw [show t.2 - (t.2 - c.2) * (1 - 0.1) ^ k - t.2 = -((t.2 - c.2) * (1 - 0.1) ^ k) by ring,
          abs_neg, abs_mul, abs_pow, abs_of_nonneg (by norm_num : (0 : ℝ) ≤ 1 - 0.1)]
      rw [this]
      have h1 : |t.2 - c.2| * (1 - 0.1) ^ k ≤ M * (1 - 0.1) ^ k := by
        apply mul_le_mul_of_nonneg_right _ (hpow k)
        have := abs_nonneg (t.1 - c.1)
        rw [hM]; linarith
      calc |t.2 - c.2| * (1 - 0.1) ^ k ≤ M * (1 - 0.1) ^ k := h1
        _ < ε := by rw [mul_comm]; exact hkM

/-- C6 witness: starting from the origin with constant target `(1, 2)`,
the third iterate has not overshot the target, and some iterate lies
within `0.01` of the target on both axes. -/
theorem cursor_follower_spec_witness :
    ((cursorStep (1, 2))^[3] ((0 : ℝ), (0 : ℝ))).1 ≤ 1
    ∧ ∃ k : ℕ, |((cursorStep (1, 2))^[k] ((0 : ℝ), (0 : ℝ))).1 - 1| < 0.01
        ∧ |((cursorStep (1, 2))^[k] ((0 : ℝ), (0 : ℝ))).2 - 2| < 0.01 := by
  constructor
  · exact (((cursor_follower_spec (1, 2) (0, 0)).2.1 3).1) (by norm_num)
  · exact (cursor_follower_spec (1, 2) (0, 0)).2.2 0.01 (by norm_num)

/-- The repulsion step only touches the velocity. -/
@[simp] theorem repelStep_hue (m : Mouse) (p : Particle) :
    (repelStep m p).hue = p.hue := by
  rcases m with ⟨mx, my⟩
  cases mx with
  | none => rfl
  | some a =>
    cases my with
    | none => rfl
    | some b =>
      unfold repelStep
      dsimp only
      split <;> rfl

/-- The repulsion step only touches the velocity. -/
@[simp] theorem repelStep_radius (m : Mouse) (p : Particle) :
    (repelStep m p).radius = p.radius := by
  rcases m with ⟨mx, my⟩
  cases mx with
  | none => rfl
  | some a =>
    cases my with
    | none => rfl
    | some b =>
      unfold repelStep
      dsimp only
      split <;> rfl

/-- The speed-cap step only touches the velocity. -/
@[simp] theorem capStep_hue (p : Particle) : (capStep p).hue = p.hue := by
  unfold capStep
  split <;> rfl

/-- The speed-cap step only touches the velocity. -/
@[simp] theorem capStep_radius (p : Particle) : (capStep p).radius = p.radius := by
  unfold capStep
  split <;> rfl

/-- The full update maps the hue through `hueNext` and nothing else. -/
@[simp] theorem update_hue (m : Mouse) (w h r1 r2 : ℝ) (p : Particle) :
    (update m w h r1 r2 p).hue = hueNext p.hue := by
  simp [update, bounceStep, moveStep, jitterStep, frictionStep, hueStep]

/-- The full update never changes the radius. -/
@[simp] theorem update_radius (m : Mouse) (w h r1 r2 : ℝ) (p : Particle) :
    (update m w h r1 r2 p).radius = p.radius := by
  simp [update, bounceStep, moveStep, jitterStep, frictionStep, hueStep]

/-- On a nonnegative dividend `jsRem` agrees with mathematical reduction
modulo a positive modulus. -/
theorem jsRem_nonneg (a b : ℝ) (ha : 0 ≤ a) (hb : 0 < b) :
    jsRem a b = b * Int.fract (a / b) := by
  unfold jsRem
  rw [if_pos (div_nonneg ha hb.le), Int.fract]
  field_simp

/-- Shifting inside `Int.fract` by an already-reduced value. -/
theorem fract_shift (u c : ℝ) :
    Int.fract (Int.fract u + c) = Int.fract (u + c) := by
  have h : Int.fract u + c = (u + c) - (⌊u⌋ : ℤ) := by
    rw [Int.fract]
    ring
  rw [h, Int.fract_sub_int]

theorem hueNext_fract (x : ℝ) (hx : 0 ≤ x) :
    hueNext x = 360 * Int.fract ((x + 0.5) / 360) := by
  unfold hueNext
  exact jsRem_nonneg (x + 0.5) 360 (by linarith) (by norm_num)

/-- Iterating `hueNext` from a hue in `[0, 360)` gives the reduced value of
`h + 0.5 k` modulo 360. -/
theorem hueNext_iterate (x : ℝ) (h0 : 0 ≤ x) (h1 : x < 360) (k : ℕ) :
    hueNext^[k] x = 360 * Int.fract ((x + 0.5 * k) / 360) := by
  induction k with
  | zero =>
    have : Int.fract (x / 360) = x / 360 :=
      Int.fract_eq_self.mpr ⟨div_nonneg h0 (by norm_num),
        (div_lt_one (by norm_num)).mpr h1⟩
    simp only [Function.iterate_zero, id_eq, Nat.cast_zero, mul_zero, add_zero, this]
    field_simp
  | succ n ih =>
    rw [Function.iterate_succ_apply', ih]
    have hy : (0 : ℝ) ≤ 360 * Int.fract ((x + 0.5 * n) / 360) := by
      have := Int.fract_nonneg ((x + 0.5 * n) / 360)
      linarith
    rw [hueNext_fract _ hy]
    congr 1
    have harg : (360 * Int.fract ((x + 0.5 * n) / 360) + 0.5) / 360
        = Int.fract ((x + 0.5 * n) / 360) + 0.5 / 360 := by ring
    rw [harg, fract_shift]
    congr 1
    push_cast
    ring

/-- C7: the full per-frame update sends the hue through
`hue ↦ (hue + 0.5) % 360`; starting from a hue in `[0, 360)` the hue stays
in `[0, 360)`, and 720 consecutive applications return it to its starting
value. -/
theorem hue_wrap_spec (p : Particle) (m : Mouse) (w h r1 r2 : ℝ)
    (h0 : 0 ≤ p.hue) (h1 : p.hue < 360) :
    (update m w h r1 r2 p).hue = hueNext p.hue
    ∧ 0 ≤ hueNext p.hue ∧ hueNext p.hue < 360
    ∧ hueNext^[720] p.hue = p.hue := by
  have hrange : 0 ≤ hueNext p.hue ∧ hueNext p.hue < 360 := by
    rw [hueNext_fract _ h0]
    constructor
    · have := Int.fract_nonneg ((p.hue + 0.5) / 360)
      linarith
    · have := Int.fract_lt_one ((p.hue + 0.5) / 360)
      linarith
  refine ⟨update_hue m w h r1 r2 p, hrange.1, hrange.2, ?_⟩
  rw [hueNext_iterate p.hue h0 h1 720]
  have : (p.hue + 0.5 * (720 : ℕ)) / 360 = p.hue / 360 + 1 := by
    push_cast
    ring
  rw [this, Int.fract_add_one]
  have : Int.fract (p.hue / 360) = p.hue / 360 :=
    Int.fract_eq_self.mpr ⟨div_nonneg h0 (by norm_num),
      (div_lt_one (by norm_num)).mpr h1⟩
  rw [this]
  field_simp

/-- C7 witness: a particle with hue `10`; after one update the hue is
`hueNext 10` which lies in `[0, 360)`, and 720 `hueNext` steps are the
identity on `10`. -/
theorem hue_wrap_spec_witness :
    (update ⟨none, none⟩ 800 600 0.5 0.5 ⟨40, 40, 1, ⟨0, 0⟩, 10⟩).hue
        = hueNext (10 : ℝ)
    ∧ 0 ≤ hueNext (10 : ℝ) ∧ hueNext (10 : ℝ) < 360
    ∧ hueNext^[720] (10 : ℝ) = 10 :=
  hue_wrap_spec ⟨40, 40, 1, ⟨0, 0⟩, 10⟩ ⟨none, none⟩ 800 600 0.5 0.5
    (by norm_num) (by norm_num)

/-- C8: no division in the update divides by zero: the force denominators
are the nonzero constant 100, and the speed-cap division by `speed` is
guarded by `speed > 1.5`, hence `speed ≠ 0` there.  In the edge case where
the pointer coincides exactly with the particle (`dist = 0`), the
repulsion step is well defined and adds exactly `2` to `velocity.x` and
`0` to `velocity.y` (`atan2 0 0 = 0`, a rightward push). -/
theorem repel_zero_dist_spec (p : Particle) (mx my : ℝ)
    (hx : p.x = mx) (hy : p.y = my) :
    (repelStep ⟨some mx, some my⟩ p).velocity.x = p.velocity.x + 2
    ∧ (repelStep ⟨some mx, some my⟩ p).velocity.y = p.velocity.y + 0
    ∧ ∀ v : Vec, 1.5 < speedOf v → speedOf v ≠ 0 := by
  subst hx hy
  have hdist : Real.sqrt ((p.x - p.x) ^ 2 + (p.y - p.y) ^ 2) = 0 := by simp
  have harg : atan2 (p.y - p.y) (p.x - p.x) = 0 := by
    have hzero : (⟨p.x - p.x, p.y - p.y⟩ : ℂ) = 0 := by
      simp [Complex.ext_iff]
    rw [atan2, hzero, Complex.arg_zero]
  have hstep : repelStep ⟨some p.x, some p.y⟩ p =
      { p with velocity := ⟨p.velocity.x + Real.cos (atan2 (p.y - p.y) (p.x - p.x)) *
          ((100 - Real.sqrt ((p.x - p.x) ^ 2 + (p.y - p.y) ^ 2)) / 100) * 2,
        p.velocity.y + Real.sin (atan2 (p.y - p.y) (p.x - p.x)) *
          ((100 - Real.sqrt ((p.x - p.x) ^ 2 + (p.y - p.y) ^ 2)) / 100) * 2⟩ } := by
    show (if Real.sqrt ((p.x - p.x) ^ 2 + (p.y - p.y) ^ 2) < 100 then _ else _) = _
    rw [if_pos (by rw [hdist]; norm_num)]
  refine ⟨?_, ?_, fun v hv h0 => by rw [h0] at hv; norm_num at hv⟩
  · rw [hstep]
    dsimp only
    rw [harg, hdist, Real.cos_zero]
    norm_num
  · rw [hstep]
    dsimp only
    rw [harg, Real.sin_zero]
    ring

/-- C8 witness: the pointer exactly on a particle at `(7, 9)` with
velocity `(0.3, 0.4)`. -/
theorem repel_zero_dist_spec_witness :
    (repelStep ⟨some 7, some 9⟩ ⟨7, 9, 1, ⟨0.3, 0.4⟩, 0⟩).velocity.x = 0.3 + 2
    ∧ (repelStep ⟨some 7, some 9⟩ ⟨7, 9, 1, ⟨0.3, 0.4⟩, 0⟩).velocity.y = 0.4 + 0
    ∧ ∀ v : Vec, 1.5 < speedOf v → speedOf v ≠ 0 :=
  repel_zero_dist_spec ⟨7, 9, 1, ⟨0.3, 0.4⟩, 0⟩ 7 9 rfl rfl

/-- C10: the per-particle update reads only the particle state, mouse
state, surface dimensions, and the two jitter random draws; when the
velocity after the friction and speed-cap steps is at least `0.05` in
absolute value on both axes (so neither idle-jitter branch is taken), the
result does not depend on the random draws at all: two runs from equal
inputs produce equal particle states. -/
theorem update_deterministic (p : Particle) (m : Mouse) (w h r1 r2 r1' r2' : ℝ)
    (hx : 0.05 ≤ |(capStep (frictionStep (repelStep m (hueStep p)))).velocity.x|)
    (hy : 0.05 ≤ |(capStep (frictionStep (repelStep m (hueStep p)))).velocity.y|) :
    update m w h r1 r2 p = update m w h r1' r2' p := by
  have hj : ∀ s1 s2 : ℝ,
      jitterStep s1 s2 (capStep (frictionStep (repelStep m (hueStep p))))
        = capStep (frictionStep (repelStep m (hueStep p))) := by
    intro s1 s2
    unfold jitterStep
    rw [if_neg (not_lt.mpr hx), if_neg (not_lt.mpr hy)]
  unfold update
  rw [hj r1 r2, hj r1' r2']

/-- C10 witness: a particle with velocity `(1, 1)` and no pointer;
after friction the velocity is `(0.97, 0.97)`, below the speed cap and
above the jitter threshold, so two runs with different random draws agree. -/
theorem update_deterministic_witness :
    update ⟨none, none⟩ 1000 1000 0.2 0.8 ⟨500, 500, 2, ⟨1, 1⟩, 0⟩
      = update ⟨none, none⟩ 1000 1000 0.6 0.4 ⟨500, 500, 2, ⟨1, 1⟩, 0⟩ := by
  have hns : ¬ speedOf (frictionStep (repelStep ⟨none, none⟩
      (hueStep (⟨500, 500, 2, ⟨1, 1⟩, 0⟩ : Particle)))).velocity > 1.5 := by
    show ¬ Real.sqrt (((1 : ℝ) * 0.97) ^ 2 + ((1 : ℝ) * 0.97) ^ 2) > 1.5
    rw [not_lt, show ((1 : ℝ) * 0.97) ^ 2 + ((1 : ℝ) * 0.97) ^ 2 = 1.8818 from by norm_num,
      show (1.5 : ℝ) = Real.sqrt (1.5 ^ 2) from
        (Real.sqrt_sq (by norm_num : (0 : ℝ) ≤ 1.5)).symm]
    exact Real.sqrt_le_sqrt (by norm_num)
  have hcap : capStep (frictionStep (repelStep ⟨none, none⟩
      (hueStep (⟨500, 500, 2, ⟨1, 1⟩, 0⟩ : Particle))))
      = frictionStep (repelStep ⟨none, none⟩
          (hueStep (⟨500, 500, 2, ⟨1, 1⟩, 0⟩ : Particle))) := by
    unfold capStep
    rw [if_neg hns]
  apply update_deterministic
  · rw [hcap]
    show (0.05 : ℝ) ≤ |(1 : ℝ) * 0.97|
    rw [abs_of_nonneg (by norm_num : (0 : ℝ) ≤ (1 : ℝ) * 0.97)]
    norm_num
  · rw [hcap]
    show (0.05 : ℝ) ≤ |(1 : ℝ) * 0.97|
    rw [abs_of_nonneg (by norm_num : (0 : ℝ) ≤ (1 : ℝ) * 0.97)]
    norm_num

/-- When the surface is at least one particle diameter wide, the axis
bounce lands the position inside `[rad, dim - rad]`. -/
theorem bounceAxis_bounds (pos rad dim v : ℝ) (hdim : 2 * rad ≤ dim) :
    rad ≤ (bounceAxis pos rad dim v).1 ∧ (bounceAxis pos rad dim v).1 ≤ dim - rad := by
  unfold bounceAxis
  split_ifs with h1 h2 <;> constructor <;> simp <;> linarith

/-- C1 amended: after any update on a surface that is at least one
particle diameter wide and tall (`2 * radius ≤ width` and
`2 * radius ≤ height`), the particle's position satisfies
`radius ≤ x ≤ width - radius` and `radius ≤ y ≤ height - radius`,
for all particle states, pointer states, and random draws. -/
theorem position_invariant_amended (p : Particle) (m : Mouse) (w h r1 r2 : ℝ)
    (hw : 2 * p.radius ≤ w) (hh : 2 * p.radius ≤ h) :
    (update m w h r1 r2 p).radius ≤ (update m w h r1 r2 p).x
    ∧ (update m w h r1 r2 p).x ≤ w - (update m w h r1 r2 p).radius
    ∧ (update m w h r1 r2 p).radius ≤ (update m w h r1 r2 p).y
    ∧ (update m w h r1 r2 p).y ≤ h - (update m w h r1 r2 p).radius := by
  have key : ∀ q : Particle, q.radius = p.radius →
      p.radius ≤ (bounceStep w h q).x ∧ (bounceStep w h q).x ≤ w - p.radius
      ∧ p.radius ≤ (bounceStep w h q).y ∧ (bounceStep w h q).y ≤ h - p.radius := by
    intro q hq
    unfold bounceStep
    dsimp only
    rw [hq]
    exact ⟨(bounceAxis_bounds q.x p.radius w q.velocity.x hw).1,
           (bounceAxis_bounds q.x p.radius w q.velocity.x hw).2,
           (bounceAxis_bounds q.y p.radius h q.velocity.y hh).1,
           (bounceAxis_bounds q.y p.radius h q.velocity.y hh).2⟩
  have hqrad : (moveStep (jitterStep r1 r2 (capStep (frictionStep
      (repelStep m (hueStep p)))))).radius = p.radius := by
    simp [moveStep, jitterStep, frictionStep, hueStep]
  rw [update_radius m w h r1 r2 p]
  exact key (moveStep (jitterStep r1 r2 (capStep (frictionStep
    (repelStep m (hueStep p)))))) hqrad

/-- C1 witness: a particle of radius 2 at the corner of a 100 by 100
surface is pushed back inside `[2, 98]` on both axes. -/
theorem position_invariant_amended_witness :
    (update ⟨none, none⟩ 100 100 0.5 0.5 ⟨0, 0, 2, ⟨0, 0⟩, 0⟩).radius
        ≤ (update ⟨none, none⟩ 100 100 0.5 0.5 ⟨0, 0, 2, ⟨0, 0⟩, 0⟩).x
    ∧ (update ⟨none, none⟩ 100 100 0.5 0.5 ⟨0, 0, 2, ⟨0, 0⟩, 0⟩).x
        ≤ 100 - (update ⟨none, none⟩ 100 100 0.5 0.5 ⟨0, 0, 2, ⟨0, 0⟩, 0⟩).radius
    ∧ (update ⟨none, none⟩ 100 100 0.5 0.5 ⟨0, 0, 2, ⟨0, 0⟩, 0⟩).radius
        ≤ (update ⟨none, none⟩ 100 100 0.5 0.5 ⟨0, 0, 2, ⟨0, 0⟩, 0⟩).y
    ∧ (update ⟨none, none⟩ 100 100 0.5 0.5 ⟨0, 0, 2, ⟨0, 0⟩, 0⟩).y
        ≤ 100 - (update ⟨none, none⟩ 100 100 0.5 0.5 ⟨0, 0, 2, ⟨0, 0⟩, 0⟩).radius :=
  position_invariant_amended ⟨0, 0, 2, ⟨0, 0⟩, 0⟩ ⟨none, none⟩ 100 100 0.5 0.5
    (by show (2 : ℝ) * 2 ≤ 100; norm_num) (by show (2 : ℝ) * 2 ≤ 100; norm_num)

/-- C1 counterexample: the claim quantifies over all surface sizes, but on
a 1 by 1 surface a particle of radius 2 ends the update at `x = 2`, which
is greater than `width - radius = -1`: the position bound fails. -/
theorem position_invariant_counterexample :
    ¬ ((update ⟨none, none⟩ 1 1 0.5 0.5 ⟨0, 0, 2, ⟨0, 0⟩, 0⟩).radius
          ≤ (update ⟨none, none⟩ 1 1 0.5 0.5 ⟨0, 0, 2, ⟨0, 0⟩, 0⟩).x
        ∧ (update ⟨none, none⟩ 1 1 0.5 0.5 ⟨0, 0, 2, ⟨0, 0⟩, 0⟩).x
          ≤ 1 - (update ⟨none, none⟩ 1 1 0.5 0.5 ⟨0, 0, 2, ⟨0, 0⟩, 0⟩).radius
        ∧ (update ⟨none, none⟩ 1 1 0.5 0.5 ⟨0, 0, 2, ⟨0, 0⟩, 0⟩).radius
          ≤ (update ⟨none, none⟩ 1 1 0.5 0.5 ⟨0, 0, 2, ⟨0, 0⟩, 0⟩).y
        ∧ (update ⟨none, none⟩ 1 1 0.5 0.5 ⟨0, 0, 2, ⟨0, 0⟩, 0⟩).y
          ≤ 1 - (update ⟨none, none⟩ 1 1 0.5 0.5 ⟨0, 0, 2, ⟨0, 0⟩, 0⟩).radius) := by
  intro hcl
  have hx2 : (update ⟨none, none⟩ 1 1 0.5 0.5 ⟨0, 0, 2, ⟨0, 0⟩, 0⟩).x = 2 := by
    norm_num [update, bounceStep, moveStep, jitterStep, capStep, frictionStep,
      hueStep, repelStep, bounceAxis, speedOf, Real.sqrt_zero]
  have hr2 : (update ⟨none, none⟩ 1 1 0.5 0.5 ⟨0, 0, 2, ⟨0, 0⟩, 0⟩).radius = 2 := by
    norm_num [update, bounceStep, moveStep, jitterStep, capStep, frictionStep,
      hueStep, repelStep, bounceAxis, speedOf, Real.sqrt_zero]
  rw [hx2, hr2] at hcl
  have := hcl.2.1
  norm_num at this

/-- The hue step does not move the particle. -/
@[simp] theorem hueStep_x (p : Particle) : (hueStep p).x = p.x := rfl

/-- The hue step does not move the particle. -/
@[simp] theorem hueStep_y (p : Particle) : (hueStep p).y = p.y := rfl

/-- The friction step does not move the particle. -/
@[simp] theorem frictionStep_x (p : Particle) : (frictionStep p).x = p.x := rfl

/-- The friction step does not move the particle. -/
@[simp] theorem frictionStep_y (p : Particle) : (frictionStep p).y = p.y := rfl

/-- The jitter step does not move the particle. -/
@[simp] theorem jitterStep_x (r1 r2 : ℝ) (p : Particle) : (jitterStep r1 r2 p).x = p.x := rfl

/-- The jitter step does not move the particle. -/
@[simp] theorem jitterStep_y (r1 r2 : ℝ) (p : Particle) : (jitterStep r1 r2 p).y = p.y := rfl

/-- The jitter step keeps the radius. -/
@[simp] theorem jitterStep_radius (r1 r2 : ℝ) (p : Particle) :
    (jitterStep r1 r2 p).radius = p.radius := rfl

/-- Integration adds the velocity to the position. -/
@[simp] theorem moveStep_x (p : Particle) : (moveStep p).x = p.x + p.velocity.x := rfl

/-- Integration adds the velocity to the position. -/
@[simp] theorem moveStep_y (p : Particle) : (moveStep p).y = p.y + p.velocity.y := rfl

/-- Integration keeps the radius. -/
@[simp] theorem moveStep_radius (p : Particle) : (moveStep p).radius = p.radius := rfl

/-- Integration keeps the velocity. -/
@[simp] theorem moveStep_velocity (p : Particle) : (moveStep p).velocity = p.velocity := rfl

/-- The friction step keeps the radius. -/
@[simp] theorem frictionStep_radius (p : Particle) : (frictionStep p).radius = p.radius := rfl

/-- The hue step keeps the radius. -/
@[simp] theorem hueStep_radius (p : Particle) : (hueStep p).radius = p.radius := rfl

/-- The speed-cap step does not move the particle. -/
@[simp] theorem capStep_x (p : Particle) : (capStep p).x = p.x := by
  unfold capStep
  split <;> rfl

/-- The speed-cap step does not move the particle. -/
@[simp] theorem capStep_y (p : Particle) : (capStep p).y = p.y := by
  unfold capStep
  split <;> rfl

/-- The repulsion step does not move the particle. -/
@[simp] theorem repelStep_x (m : Mouse) (p : Particle) : (repelStep m p).x = p.x := by
  rcases m with ⟨mx, my⟩
  cases mx with
  | none => rfl
  | some a =>
    cases my with
    | none => rfl
    | some b =>
      unfold repelStep
      dsimp only
      split <;> rfl

/-- The repulsion step does not move the particle. -/
@[simp] theorem repelStep_y (m : Mouse) (p : Particle) : (repelStep m p).y = p.y := by
  rcases m with ⟨mx, my⟩
  cases mx with
  | none => rfl
  | some a =>
    cases my with
    | none => rfl
    | some b =>
      unfold repelStep
      dsimp only
      split <;> rfl

/-- After the speed-cap step the squared speed is at most `1.5 ^ 2`. -/
theorem capStep_sq_le (p : Particle) :
    (capStep p).velocity.x ^ 2 + (capStep p).velocity.y ^ 2 ≤ 2.25 := by
  unfold capStep
  split_ifs with hgt
  · dsimp only
    have hs0 : (0 : ℝ) ≤ p.velocity.x ^ 2 + p.velocity.y ^ 2 := by positivity
    have hspos : (0 : ℝ) < speedOf p.velocity := lt_trans (by norm_num) hgt
    have hsq : speedOf p.velocity ^ 2 = p.velocity.x ^ 2 + p.velocity.y ^ 2 :=
      Real.sq_sqrt hs0
    have hne : speedOf p.velocity ≠ 0 := ne_of_gt hspos
    have hexp : (p.velocity.x / speedOf p.velocity * 1.5) ^ 2
        + (p.velocity.y / speedOf p.velocity * 1.5) ^ 2
        = (p.velocity.x ^ 2 + p.velocity.y ^ 2) / speedOf p.velocity ^ 2 * 2.25 := by
      field_simp
      ring
    rw [hexp, hsq, div_self (by nlinarith : p.velocity.x ^ 2 + p.velocity.y ^ 2 ≠ 0)]
    norm_num
  · have hle : speedOf p.velocity ≤ 1.5 := not_lt.mp hgt
    have hs0 : (0 : ℝ) ≤ p.velocity.x ^ 2 + p.velocity.y ^ 2 := by positivity
    have hsq : speedOf p.velocity ^ 2 = p.velocity.x ^ 2 + p.velocity.y ^ 2 :=
      Real.sq_sqrt hs0
    have hsnn : (0 : ℝ) ≤ speedOf p.velocity := Real.sqrt_nonneg _
    have key : (0 : ℝ) ≤ (1.5 - speedOf p.velocity) * (1.5 + speedOf p.velocity) :=
      mul_nonneg (by linarith) (by linarith)
    nlinarith [key]

set_option maxHeartbeats 1000000 in
/-- After the jitter step, a squared speed of at most `2.25` can grow to at
most `721 / 320 = 2.25 + 2 * 0.05 * 0.025 + 0.025 ^ 2` (a jittered axis has
pre-jitter component below `0.05` in absolute value, and the added noise is
in `[-0.025, 0.025)`). -/
theorem jitterStep_sq_le (r1 r2 : ℝ) (p : Particle)
    (h1 : 0 ≤ r1) (h2 : r1 < 1) (h3 : 0 ≤ r2) (h4 : r2 < 1)
    (hp : p.velocity.x ^ 2 + p.velocity.y ^ 2 ≤ 2.25) :
    (jitterStep r1 r2 p).velocity.x ^ 2 + (jitterStep r1 r2 p).velocity.y ^ 2
      ≤ 721 / 320 := by
  unfold jitterStep
  dsimp only
  have hd1a : -(1 / 40 : ℝ) ≤ (r1 - 0.5) * 0.05 := by nlinarith
  have hd1b : (r1 - 0.5) * 0.05 ≤ 1 / 40 := by nlinarith
  have hd2a : -(1 / 40 : ℝ) ≤ (r2 - 0.5) * 0.05 := by nlinarith
  have hd2b : (r2 - 0.5) * 0.05 ≤ 1 / 40 := by nlinarith
  split_ifs with hax hby hby
  · have ha := abs_lt.mp hax
    have hb := abs_lt.mp hby
    nlinarith [mul_nonneg (by linarith : (0 : ℝ) ≤ 3 / 40 - (p.velocity.x + (r1 - 0.5) * 0.05))
        (by linarith : (0 : ℝ) ≤ 3 / 40 + (p.velocity.x + (r1 - 0.5) * 0.05)),
      mul_nonneg (by linarith : (0 : ℝ) ≤ 3 / 40 - (p.velocity.y + (r2 - 0.5) * 0.05))
        (by linarith : (0 : ℝ) ≤ 3 / 40 + (p.velocity.y + (r2 - 0.5) * 0.05))]
  · have ha := abs_lt.mp hax
    nlinarith [mul_nonneg (by linarith : (0 : ℝ) ≤ 1 / 20 - p.velocity.x)
        (by linarith : (0 : ℝ) ≤ 1 / 40 + (r1 - 0.5) * 0.05),
      mul_nonneg (by linarith : (0 : ℝ) ≤ 1 / 20 + p.velocity.x)
        (by linarith : (0 : ℝ) ≤ 1 / 40 - (r1 - 0.5) * 0.05),
      mul_nonneg (by linarith : (0 : ℝ) ≤ 1 / 40 - (r1 - 0.5) * 0.05)
        (by linarith : (0 : ℝ) ≤ 1 / 40 + (r1 - 0.5) * 0.05)]
  · have hb := abs_lt.mp hby
    nlinarith [mul_nonneg (by linarith : (0 : ℝ) ≤ 1 / 20 - p.velocity.y)
        (by linarith : (0 : ℝ) ≤ 1 / 40 + (r2 - 0.5) * 0.05),
      mul_nonneg (by linarith : (0 : ℝ) ≤ 1 / 20 + p.velocity.y)
        (by linarith : (0 : ℝ) ≤ 1 / 40 - (r2 - 0.5) * 0.05),
      mul_nonneg (by linarith : (0 : ℝ) ≤ 1 / 40 - (r2 - 0.5) * 0.05)
        (by linarith : (0 : ℝ) ≤ 1 / 40 + (r2 - 0.5) * 0.05)]
  · linarith

/-- The wall bounce never increases the squared velocity component. -/
theorem bounceAxis_v_sq (pos rad dim v : ℝ) :
    (bounceAxis pos rad dim v).2 ^ 2 ≤ v ^ 2 := by
  unfold bounceAxis
  split_ifs <;> dsimp only <;> nlinarith [sq_nonneg v]

/-- The wall-bounce step never increases the squared speed. -/
theorem bounceStep_sq_le (w h : ℝ) (q : Particle) :
    (bounceStep w h q).velocity.x ^ 2 + (bounceStep w h q).velocity.y ^ 2
      ≤ q.velocity.x ^ 2 + q.velocity.y ^ 2 := by
  unfold bounceStep
  dsimp only
  have hx1 := bounceAxis_v_sq q.x q.radius w q.velocity.x
  have hy1 := bounceAxis_v_sq q.y q.radius h q.velocity.y
  linarith

/-- C2 amended: after any update with random draws in `[0, 1)`, the
velocity magnitude is at most `sqrt(721/320) ≈ 1.50104`: the speed cap
bounds the magnitude by `1.5`, but the idle jitter runs after the cap and
can push the magnitude up to `sqrt(1.5^2 + 2 * 0.05 * 0.025 + 0.025^2)`
before integration; the wall bounce only shrinks components. -/
theorem speed_cap_amended (p : Particle) (m : Mouse) (w h r1 r2 : ℝ)
    (h1 : 0 ≤ r1) (h2 : r1 < 1) (h3 : 0 ≤ r2) (h4 : r2 < 1) :
    Real.sqrt ((update m w h r1 r2 p).velocity.x ^ 2
      + (update m w h r1 r2 p).velocity.y ^ 2) ≤ Real.sqrt (721 / 320) := by
  unfold update
  apply Real.sqrt_le_sqrt
  have hcap := capStep_sq_le (frictionStep (repelStep m (hueStep p)))
  have hjit := jitterStep_sq_le r1 r2 (capStep (frictionStep (repelStep m (hueStep p))))
    h1 h2 h3 h4 hcap
  have hb := bounceStep_sq_le w h
    (moveStep (jitterStep r1 r2 (capStep (frictionStep (repelStep m (hueStep p))))))
  rw [moveStep_velocity] at hb
  exact le_trans hb hjit

/-- C2 witness: a resting particle far from the walls with median random
draws stays within the amended speed bound. -/
theorem speed_cap_amended_witness :
    Real.sqrt ((update ⟨none, none⟩ 800 600 0.5 0.5 ⟨50, 50, 2, ⟨0, 0⟩, 0⟩).velocity.x ^ 2
      + (update ⟨none, none⟩ 800 600 0.5 0.5 ⟨50, 50, 2, ⟨0, 0⟩, 0⟩).velocity.y ^ 2)
      ≤ Real.sqrt (721 / 320) :=
  speed_cap_amended ⟨50, 50, 2, ⟨0, 0⟩, 0⟩ ⟨none, none⟩ 800 600 0.5 0.5
    (by norm_num) (by norm_num) (by norm_num) (by norm_num)

/-- C2 counterexample: starting from velocity `(0.061, 1.86)` with no
pointer, friction gives `(0.05917, 1.8042)` of magnitude exactly
`1.80517`, so the cap rescales to magnitude exactly `1.5` with
`vx ≈ 0.0492 < 0.05`; the idle jitter then adds `0.02` to `vx` (random
draw `0.9`), and the resulting magnitude `≈ 1.50079` exceeds the claimed
bound `1.5` by far more than floating-point tolerance. -/
theorem speed_cap_counterexample :
    1.5 < Real.sqrt
      ((update ⟨none, none⟩ 1000 1000 0.9 0.5 ⟨500, 500, 2, ⟨0.061, 1.86⟩, 0⟩).velocity.x ^ 2
       + (update ⟨none, none⟩ 1000 1000 0.9 0.5 ⟨500, 500, 2, ⟨0.061, 1.86⟩, 0⟩).velocity.y ^ 2) := by
  have hs : speedOf (frictionStep (repelStep ⟨none, none⟩
      (hueStep (⟨500, 500, 2, ⟨0.061, 1.86⟩, 0⟩ : Particle)))).velocity = 1.80517 := by
    show Real.sqrt (((0.061 : ℝ) * 0.97) ^ 2 + ((1.86 : ℝ) * 0.97) ^ 2) = 1.80517
    rw [show ((0.061 : ℝ) * 0.97) ^ 2 + ((1.86 : ℝ) * 0.97) ^ 2 = 1.80517 ^ 2 from by norm_num,
      Real.sqrt_sq (by norm_num : (0 : ℝ) ≤ 1.80517)]
  have hcapv : (capStep (frictionStep (repelStep ⟨none, none⟩
      (hueStep (⟨500, 500, 2, ⟨0.061, 1.86⟩, 0⟩ : Particle))))).velocity
      = ⟨0.061 * 0.97 / 1.80517 * 1.5, 1.86 * 0.97 / 1.80517 * 1.5⟩ := by
    unfold capStep
    rw [hs, if_pos (by norm_num : (1.80517 : ℝ) > 1.5)]
    rfl
  have hA : |(0.061 : ℝ) * 0.97 / 1.80517 * 1.5| < 0.05 := by
    rw [abs_of_nonneg (by norm_num : (0 : ℝ) ≤ 0.061 * 0.97 / 1.80517 * 1.5)]
    norm_num
  have hB : ¬ |(1.86 : ℝ) * 0.97 / 1.80517 * 1.5| < 0.05 := by
    rw [abs_of_nonneg (by norm_num : (0 : ℝ) ≤ 1.86 * 0.97 / 1.80517 * 1.5)]
    norm_num
  have hjitv : (jitterStep 0.9 0.5 (capStep (frictionStep (repelStep ⟨none, none⟩
      (hueStep (⟨500, 500, 2, ⟨0.061, 1.86⟩, 0⟩ : Particle)))))).velocity
      = ⟨0.061 * 0.97 / 1.80517 * 1.5 + (0.9 - 0.5) * 0.05,
         1.86 * 0.97 / 1.80517 * 1.5⟩ := by
    unfold jitterStep
    rw [hcapv]
    dsimp only
    rw [if_pos hA, if_neg hB]
  have hqv : (moveStep (jitterStep 0.9 0.5 (capStep (frictionStep (repelStep ⟨none, none⟩
      (hueStep (⟨500, 500, 2, ⟨0.061, 1.86⟩, 0⟩ : Particle))))))).velocity
      = ⟨0.061 * 0.97 / 1.80517 * 1.5 + (0.9 - 0.5) * 0.05,
         1.86 * 0.97 / 1.80517 * 1.5⟩ := by
    rw [moveStep_velocity, hjitv]
  have hqx : (moveStep (jitterStep 0.9 0.5 (capStep (frictionStep (repelStep ⟨none, none⟩
      (hueStep (⟨500, 500, 2, ⟨0.061, 1.86⟩, 0⟩ : Particle))))))).x
      = 500 + (0.061 * 0.97 / 1.80517 * 1.5 + (0.9 - 0.5) * 0.05) := by
    simp only [moveStep_x, jitterStep_x, capStep_x, frictionStep_x, repelStep_x,
      hueStep_x, hjitv]
  have hqy : (moveStep (jitterStep 0.9 0.5 (capStep (frictionStep (repelStep ⟨none, none⟩
      (hueStep (⟨500, 500, 2, ⟨0.061, 1.86⟩, 0⟩ : Particle))))))).y
      = 500 + 1.86 * 0.97 / 1.80517 * 1.5 := by
    simp only [moveStep_y, jitterStep_y, capStep_y, frictionStep_y, repelStep_y,
      hueStep_y, hjitv]
  have hqrad : (moveStep (jitterStep 0.9 0.5 (capStep (frictionStep (repelStep ⟨none, none⟩
      (hueStep (⟨500, 500, 2, ⟨0.061, 1.86⟩, 0⟩ : Particle))))))).radius = 2 := by
    simp only [moveStep_radius, jitterStep_radius, capStep_radius, frictionStep_radius,
      repelStep_radius, hueStep_radius]
  have hfinal : (update ⟨none, none⟩ 1000 1000 0.9 0.5
      (⟨500, 500, 2, ⟨0.061, 1.86⟩, 0⟩ : Particle)).velocity
      = ⟨0.061 * 0.97 / 1.80517 * 1.5 + (0.9 - 0.5) * 0.05,
         1.86 * 0.97 / 1.80517 * 1.5⟩ := by
    unfold update bounceStep
    dsimp only
    rw [hqx, hqy, hqrad, hqv]
    unfold bounceAxis
    dsimp only
    rw [if_neg (by norm_num :
          ¬ (500 + (0.061 * 0.97 / 1.80517 * 1.5 + (0.9 - 0.5) * 0.05) - 2 < (0 : ℝ))),
        if_neg (by norm_num :
          ¬ (500 + (0.061 * 0.97 / 1.80517 * 1.5 + (0.9 - 0.5) * 0.05) + 2 > (1000 : ℝ))),
        if_neg (by norm_num : ¬ (500 + 1.86 * 0.97 / 1.80517 * 1.5 - 2 < (0 : ℝ))),
        if_neg (by norm_num : ¬ (500 + 1.86 * 0.97 / 1.80517 * 1.5 + 2 > (1000 : ℝ)))]
  rw [hfinal]
  dsimp only
  exact (Real.lt_sqrt (by norm_num : (0 : ℝ) ≤ 1.5)).mpr (by norm_num)
